import Mathlib

/-
Verification of the iconflow descriptor-to-table generator (xtask/src/main.rs)
and of the lookup tables it emits.  The Rust source is embedded shallowly:
machine strings become `String` / `List Char`, `u32` codepoints become `Nat`,
`BTreeMap` arguments become association lists, fallible Rust functions become
`Except`-valued Lean functions, and the filesystem becomes an explicit map from
paths to file contents.  Rust's stable `sort_by` is modelled by a stable
insertion sort (any stable sort produces the same list), and `String` ordering
uses character-list lexicographic order, which coincides with Rust's byte-wise
`Ord` on UTF-8 strings.
-/

namespace IconFlow

/-- Style enumeration of xtask/src/main.rs (closed, 10 values). -/
inductive Style where
  | Regular | Filled | Outline | Light | Thin | Bold | Duotone | Glyph | Sharp | Rounded
deriving DecidableEq

/-- Size enumeration of xtask/src/main.rs: four fixed tokens or a custom pixel size. -/
inductive Size where
  | Tiny | Mini | Regular | Large
  | Custom (value : Nat)
deriving DecidableEq

/-- VariantKey of xtask/src/main.rs: the (style, size) pair identifying a variant. -/
structure VariantKey where
  style : Style
  size : Size
deriving DecidableEq

/-- Raw variant record of a pack descriptor (struct Variant). -/
structure Variant where
  id : String
  style : Style
  size : Size
  family : String
  ttf_asset_path : String
  feature : Option String
deriving DecidableEq

/-- Raw icon record of a pack descriptor (struct Icon).  The `overrides`
`BTreeMap<String, u32>` is embedded as an association list. -/
structure Icon where
  name : String
  codepoint : Option Nat
  overrides : List (String × Nat)
  availability : Option (List String)
deriving DecidableEq

/-- Raw pack descriptor (struct PackMap); the `source_path` field only feeds
error-message text and is omitted. -/
structure PackMap where
  pack_id : String
  variants : List Variant
  icons : List Icon
deriving DecidableEq

/-- Normalized variant record (struct VariantInfo). -/
structure VariantInfo where
  id : String
  key : VariantKey
  family : String
  ttf_asset_path : String
  feature : Option String
deriving DecidableEq

/-- Normalized icon (struct NormalizedIcon). -/
structure NormalizedIcon where
  name : String
  ident : String
  codepoints : List (VariantKey × Nat)
deriving DecidableEq

/-- Normalized pack (struct NormalizedPack). -/
structure NormalizedPack where
  pack_id : String
  variants : List VariantInfo
  icons : List NormalizedIcon
deriving DecidableEq

/-- Deduplicated font-asset record (struct FontAssetInfo). -/
structure FontAssetInfo where
  const_ident : String
  family : String
  ttf_asset_path : String
  feature : Option String
deriving DecidableEq

/-- Semantic validation errors of normalize_pack and its helpers.  The Rust code
reports them as anyhow messages; each distinct bail site gets one constructor
(the two "unknown variant" bail sites share one constructor, matching the
spec's single UnknownVariantReferenced kind). -/
inductive NormErr where
  | duplicateVariantId (id : String)
  | duplicateVariantKey (key : VariantKey)
  | emptyFeatureName (id : String)
  | duplicateIconName (name : String)
  | identifierCollision (prev curr ident : String)
  | unknownVariantReferenced (icon vid : String)
  | overrideNotInAvailability (icon vid : String)
  | emptyAvailability (icon : String)
  | duplicateAvailabilityEntry (icon vid : String)
  | noCodepointOrOverrides (icon : String)
  | missingCodepointForVariant (icon vid : String)
  | noAvailableVariants (icon : String)
  | emptyIconName
  | emptySegment
  | emptyIdent
  | identUnsupportedChar (c : Char)
  | invalidAssetPath (path : String)
  | conflictingFamily (pack path f1 f2 : String)
deriving DecidableEq

/-- Runtime lookup errors (enum IconError in src/core/error.rs). -/
inductive IconError where
  | packDisabled (pack : String)
  | iconNotFound (pack : String) (name : String)
  | variantUnavailable (pack : String) (name : String)
      (requested : Style × Size) (available : List (Style × Size))
deriving DecidableEq

/-- Resolved glyph reference (struct IconRef in src/core/types.rs). -/
structure IconRef where
  family : String
  codepoint : Nat
deriving DecidableEq

instance exceptDecEq {ε α : Type} [DecidableEq ε] [DecidableEq α] :
    DecidableEq (Except ε α) := fun x y =>
  match x, y with
  | .error a, .error b =>
    if h : a = b then isTrue (by rw [h])
    else isFalse (fun hc => by cases hc; exact h rfl)
  | .ok a, .ok b =>
    if h : a = b then isTrue (by rw [h])
    else isFalse (fun hc => by cases hc; exact h rfl)
  | .error _, .ok _ => isFalse (fun hc => by cases hc)
  | .ok _, .error _ => isFalse (fun hc => by cases hc)

/-! ### Generic list machinery shared by the embedding -/

/-- Character-list lexicographic `le`; on UTF-8 strings this is exactly Rust's
byte-wise `String` ordering. -/
def chListLe : List Char → List Char → Bool
  | [], _ => true
  | _ :: _, [] => false
  | a :: as, b :: bs => if a = b then chListLe as bs else decide (a < b)

/-- String comparison used by every `sort_by('cmp')` call in xtask. -/
def strLe (a b : String) : Bool := chListLe a.data b.data

/-- Stable insertion into a sorted list: the new element (earlier in the original
list) is placed before the first element it compares `le` to. -/
def insertLe (le : α → α → Bool) (a : α) : List α → List α
  | [] => [a]
  | b :: l => if le a b then a :: b :: l else b :: insertLe le a l

/-- Stable sort modelling Rust's `sort_by`. -/
def sortBy (le : α → α → Bool) : List α → List α
  | [] => []
  | a :: l => insertLe le a (sortBy le l)

/-- Effectful map over `Except`, modelling a Rust `for` loop that pushes into a
vector and propagates the first error with `?`. -/
def mapE (f : α → Except ε β) : List α → Except ε (List β)
  | [] => .ok []
  | a :: l =>
    match f a with
    | .error e => .error e
    | .ok b =>
      match mapE f l with
      | .error e => .error e
      | .ok bs => .ok (b :: bs)

/-- First element of `xs` that is not a member of `allowed` (models the Rust
loops that bail on the first unknown reference). -/
def firstNotMem (xs allowed : List String) : Option String :=
  xs.find? (fun x => decide (x ∉ allowed))

/-- First element that repeats an earlier one (models the `BTreeSet::insert`
duplicate-detection loops). -/
def firstDup : List String → List String → Option String
  | [], _ => none
  | x :: rest, seen => if x ∈ seen then some x else firstDup rest (x :: seen)

theorem insertLe_mem (le : α → α → Bool) (a x : α) (l : List α) :
    x ∈ insertLe le a l ↔ x = a ∨ x ∈ l := by
  induction l with
  | nil => simp [insertLe]
  | cons b t ih =>
    simp only [insertLe]
    split
    · simp
    · simp only [List.mem_cons, ih]
      tauto

theorem sortBy_mem (le : α → α → Bool) (x : α) (l : List α) :
    x ∈ sortBy le l ↔ x ∈ l := by
  induction l with
  | nil => simp [sortBy]
  | cons a t ih => simp [sortBy, insertLe_mem, ih]

theorem mapE_mem (f : α → Except ε β) (l : List α) (ys : List β)
    (h : mapE f l = .ok ys) : ∀ y ∈ ys, ∃ x ∈ l, f x = .ok y := by
  induction l generalizing ys with
  | nil =>
    simp only [mapE, Except.ok.injEq] at h
    subst h; simp
  | cons a t ih =>
    simp only [mapE] at h
    cases hfa : f a with
    | error e => rw [hfa] at h; exact absurd h (by simp)
    | ok b =>
      rw [hfa] at h
      cases hft : mapE f t with
      | error e => rw [hft] at h; exact absurd h (by simp)
      | ok bs =>
        rw [hft] at h
        simp only [Except.ok.injEq] at h
        subst h
        intro y hy
        rcases List.mem_cons.mp hy with rfl | hy'
        · exact ⟨a, List.mem_cons_self a t, hfa⟩
        · rcases ih bs hft y hy' with ⟨x, hx, hfx⟩
          exact ⟨x, List.mem_cons_of_mem a hx, hfx⟩

theorem mapE_error_of_mem (f : α → Except ε β) (l : List α) (x : α) (e : ε)
    (hx : x ∈ l) (hfx : f x = .error e) : ∃ e', mapE f l = .error e' := by
  induction l with
  | nil => cases hx
  | cons a t ih =>
    rcases List.mem_cons.mp hx with rfl | hx'
    · simp only [mapE, hfx]
      exact ⟨e, rfl⟩
    · simp only [mapE]
      cases hfa : f a with
      | error e' => exact ⟨e', rfl⟩
      | ok b =>
        rcases ih hx' with ⟨e', he'⟩
        rw [he']
        exact ⟨e', rfl⟩

theorem mapE_congr (f g : α → Except ε β) (l : List α)
    (h : ∀ x ∈ l, f x = g x) : mapE f l = mapE g l := by
  induction l with
  | nil => rfl
  | cons a t ih =>
    simp only [mapE, h a (List.mem_cons_self a t)]
    rw [ih (fun x hx => h x (List.mem_cons_of_mem a hx))]

theorem firstDup_eq_none (l : List String) :
    ∀ seen, firstDup l seen = none ↔ l.Nodup ∧ ∀ x ∈ l, x ∉ seen := by
  induction l with
  | nil => intro seen; simp [firstDup]
  | cons a t ih =>
    intro seen
    simp only [firstDup]
    split
    · constructor
      · intro h; cases h
      · rintro ⟨_, hall⟩
        exact absurd (by assumption) (hall a (List.mem_cons_self a t))
    · rename_i hns
      rw [ih (a :: seen)]
      constructor
      · rintro ⟨hnd, hall⟩
        refine ⟨List.nodup_cons.mpr ⟨fun hmem => ?_, hnd⟩, ?_⟩
        · exact absurd (List.mem_cons_self a seen) (hall a hmem)
        · intro x hx
          rcases List.mem_cons.mp hx with rfl | hx'
          · exact hns
          · intro hcon
            exact (hall x hx') (List.mem_cons_of_mem a hcon)
      · rintro ⟨hnd, hall⟩
        rcases List.nodup_cons.mp hnd with ⟨hna, hndt⟩
        refine ⟨hndt, fun x hx => ?_⟩
        intro hcon
        rcases List.mem_cons.mp hcon with rfl | hcon'
        · exact hna hx
        · exact (hall x (List.mem_cons_of_mem a hx)) hcon'

theorem firstNotMem_eq_none (xs allowed : List String) :
    firstNotMem xs allowed = none ↔ ∀ x ∈ xs, x ∈ allowed := by
  simp [firstNotMem, List.find?_eq_none]

/-! ### Identifier generator (to_pascal_case / normalize_icon_name, 1008-1093) -/

/-- Rust's `str::split('-')`: leading, trailing and doubled delimiters yield
empty segments, and the empty string yields one empty segment. -/
def splitDash : List Char → List (List Char)
  | [] => [[]]
  | c :: rest =>
    if c = '-' then [] :: splitDash rest
    else
      match splitDash rest with
      | [] => [[c]]
      | g :: gs => (c :: g) :: gs

/-- Per-segment step of to_pascal_case: push the first character, uppercased
when it is ASCII-alphabetic, then the remaining characters unchanged. -/
def pascalSeg : List Char → List Char
  | [] => []
  | c :: rest => (if c.isAlpha then c.toUpper else c) :: rest

/-- Loop body of to_pascal_case: bail on an empty segment, else append the
cased segment to the output. -/
def pascalParts : List (List Char) → Except NormErr (List Char)
  | [] => .ok []
  | p :: rest =>
    if p = [] then .error .emptySegment
    else
      match pascalParts rest with
      | .error e => .error e
      | .ok tail => .ok (pascalSeg p ++ tail)

/-- to_pascal_case (xtask/src/main.rs 1030-1048). -/
def to_pascal_case (name : List Char) : Except NormErr (List Char) :=
  pascalParts (splitDash name)

/-- Reserved-word list of is_rust_keyword (xtask/src/main.rs 1050-1093). -/
def rustKeywords : List (List Char) :=
  [("as").data, ("break").data, ("const").data, ("continue").data, ("crate").data,
   ("dyn").data, ("else").data, ("enum").data, ("extern").data, ("false").data,
   ("fn").data, ("for").data, ("if").data, ("impl").data, ("in").data,
   ("let").data, ("loop").data, ("match").data, ("mod").data, ("move").data,
   ("mut").data, ("pub").data, ("ref").data, ("return").data, ("self").data,
   ("static").data, ("struct").data, ("super").data, ("trait").data, ("true").data,
   ("type").data, ("union").data, ("unsafe").data, ("use").data, ("where").data,
   ("while").data, ("async").data, ("await").data, ("try").data, ("yield").data]

/-- is_rust_keyword: lowercases the identifier (ASCII) and tests membership in
the reserved-word list. -/
def is_rust_keyword (ident : List Char) : Bool :=
  decide (ident.map Char.toLower ∈ rustKeywords)

/-- Marker token prepended when the cased identifier starts with a digit. -/
def iconDigitMarker : List Char := ("Icon").data

/-- Digit-prefix adjustment of normalize_icon_name: prepend the marker when
the cased identifier starts with an ASCII digit. -/
def markDigit (cased : List Char) : List Char :=
  if (cased.head?.map Char.isDigit).getD false then iconDigitMarker ++ cased
  else cased

/-- normalize_icon_name (xtask/src/main.rs 1008-1028). -/
def normalize_icon_name (name : List Char) : Except NormErr (List Char) :=
  if name = [] then .error .emptyIconName
  else
    match to_pascal_case name with
    | .error e => .error e
    | .ok cased =>
      if is_rust_keyword (markDigit cased) then .ok (markDigit cased ++ [ '_' ])
      else .ok (markDigit cased)

/-- Spec-side segment transform stated by claim C5: uppercase the segment's
first alphabetic character wherever it occurs, leave every other character
unchanged. -/
def specUppercaseFirstAlphabetic : List Char → List Char
  | [] => []
  | c :: rest =>
    if c.isAlpha then c.toUpper :: rest else c :: specUppercaseFirstAlphabetic rest

/-- Amended segment transform: uppercase the first character when that character
is ASCII-alphabetic, otherwise leave the segment entirely unchanged. -/
def amendedSegTransform : List Char → List Char
  | [] => []
  | c :: rest => if c.isAlpha then c.toUpper :: rest else c :: rest

theorem pascalSeg_eq_amended (p : List Char) (hp : p ≠ []) :
    pascalSeg p = amendedSegTransform p := by
  cases p with
  | nil => exact absurd rfl hp
  | cons c rest =>
    cases hb : c.isAlpha <;> simp [pascalSeg, amendedSegTransform, hb]

theorem pascalParts_ok (l : List (List Char)) (out : List Char)
    (h : pascalParts l = .ok out) :
    out = (l.map amendedSegTransform).flatten ∧ ∀ p ∈ l, p ≠ [] := by
  induction l generalizing out with
  | nil =>
    simp only [pascalParts, Except.ok.injEq] at h
    subst h; simp
  | cons p rest ih =>
    simp only [pascalParts] at h
    split at h
    · cases h
    · rename_i hp
      cases hrest : pascalParts rest with
      | error e => rw [hrest] at h; cases h
      | ok tail =>
        rw [hrest] at h
        simp only [Except.ok.injEq] at h
        rcases ih tail hrest with ⟨htail, hne⟩
        subst h
        refine ⟨?_, ?_⟩
        · simp [htail, pascalSeg_eq_amended p hp]
        · intro q hq
          rcases List.mem_cons.mp hq with rfl | hq'
          · exact hp
          · exact hne q hq'

theorem rustKeywords_no_underscore_last :
    ∀ kw ∈ rustKeywords, kw.getLast? ≠ some '_' := by decide

theorem is_rust_keyword_append_underscore (l : List Char) :
    is_rust_keyword (l ++ [ '_' ]) = false := by
  simp only [is_rust_keyword, decide_eq_false_iff_not]
  intro hmem
  rw [List.map_append] at hmem
  have hlast : ((l.map Char.toLower) ++ [Char.toLower '_']).getLast? = some '_' := by
    rw [List.getLast?_concat]
    decide
  exact rustKeywords_no_underscore_last _ hmem hlast

/-! ### Normalizer (normalize_pack, xtask/src/main.rs 270-474) -/

/-- VariantInfo built from a raw variant (normalize_pack 311-317). -/
def toInfo (v : Variant) : VariantInfo :=
  ⟨v.id, ⟨v.style, v.size⟩, v.family, v.ttf_asset_path, v.feature⟩

/-- Variant loop of normalize_pack (279-318): duplicate-id, duplicate-key and
blank-feature detection over the id-sorted variants. -/
def buildVariants : List Variant → List String → List VariantKey →
    Except NormErr (List VariantInfo)
  | [], _, _ => .ok []
  | v :: rest, seenIds, seenKeys =>
    if v.id ∈ seenIds then .error (.duplicateVariantId v.id)
    else if (⟨v.style, v.size⟩ : VariantKey) ∈ seenKeys then
      .error (.duplicateVariantKey ⟨v.style, v.size⟩)
    else if (match v.feature with
             | some f => decide (f.trim = "")
             | none => false) then
      .error (.emptyFeatureName v.id)
    else
      match buildVariants rest (v.id :: seenIds) (⟨v.style, v.size⟩ :: seenKeys) with
      | .error e => .error e
      | .ok tail => .ok (toInfo v :: tail)

/-- Lookup in the variant_key_by_id map; ids are unique on every success path
of buildVariants, so first-match lookup coincides with the BTreeMap. -/
def keyById (vs : List VariantInfo) (vid : String) : Option VariantKey :=
  (vs.find? (fun v => decide (v.id = vid))).map (fun v => v.key)

/-- Explicit-availability referential checks (normalize_pack 358-381): every
listed id must be declared and every override key must be listed. -/
def checkExplicitRefs (vs : List VariantInfo) (icon : Icon) : Except NormErr Unit :=
  match icon.availability with
  | none => .ok ()
  | some l =>
    match firstNotMem l (vs.map (fun v => v.id)) with
    | some vid => .error (.unknownVariantReferenced icon.name vid)
    | none =>
      match firstNotMem (icon.overrides.map (fun p => p.1)) l with
      | some vid => .error (.overrideNotInAvailability icon.name vid)
      | none => .ok ()

/-- Availability computation (normalize_pack 383-418): an explicit list must be
non-empty and duplicate-free; an omitted list derives from the default
codepoint (all declared ids) or from the override keys. -/
def computeAvailability (variantIds : List String) (icon : Icon) :
    Except NormErr (List String) :=
  match icon.availability with
  | some l =>
    if l = [] then .error (.emptyAvailability icon.name)
    else
      match firstDup l [] with
      | some d => .error (.duplicateAvailabilityEntry icon.name d)
      | none => .ok l
  | none =>
    match icon.codepoint with
    | some _ => .ok variantIds
    | none =>
      if icon.overrides ≠ [] then .ok (icon.overrides.map (fun p => p.1))
      else .error (.noCodepointOrOverrides icon.name)

/-- Codepoint collection (normalize_pack 421-450): for each declared variant id
in order that lies in the availability, resolve the override else the default
codepoint, and pair it with the variant's key. -/
def buildCodepoints (vs : List VariantInfo) (icon : Icon) (avail : List String) :
    List String → Except NormErr (List (VariantKey × Nat))
  | [] => .ok []
  | vid :: rest =>
    if vid ∈ avail then
      match (match icon.overrides.find? (fun p => decide (p.1 = vid)) with
             | some p => Except.ok p.2
             | none =>
               match icon.codepoint with
               | some c => Except.ok c
               | none => Except.error (NormErr.missingCodepointForVariant icon.name vid)) with
      | .error e => .error e
      | .ok cp =>
        match keyById vs vid with
        | none => .error (.unknownVariantReferenced icon.name vid)
        | some key =>
          match buildCodepoints vs icon avail rest with
          | .error e => .error e
          | .ok tail => .ok ((key, cp) :: tail)
    else buildCodepoints vs icon avail rest

/-- Per-icon normalization after the duplicate-name and identifier-collision
checks: referential checks, availability, codepoints, and the defensive
no-available-variants check (normalize_pack 347-464). -/
def processIcon (vs : List VariantInfo) (icon : Icon) (ident : String) :
    Except NormErr NormalizedIcon :=
  match firstNotMem (icon.overrides.map (fun p => p.1)) (vs.map (fun v => v.id)) with
  | some vid => .error (.unknownVariantReferenced icon.name vid)
  | none =>
    match checkExplicitRefs vs icon with
    | .error e => .error e
    | .ok _ =>
      match computeAvailability (vs.map (fun v => v.id)) icon with
      | .error e => .error e
      | .ok avail =>
        match buildCodepoints vs icon avail (vs.map (fun v => v.id)) with
        | .error e => .error e
        | .ok cps =>
          if cps = [] then .error (.noAvailableVariants icon.name)
          else .ok ⟨icon.name, ident, cps⟩

/-- Icon loop of normalize_pack (327-465): duplicate raw names, identifier
generation, cross-name identifier collisions, then processIcon. -/
def buildIcons (vs : List VariantInfo) :
    List Icon → List String → List (String × String) →
    Except NormErr (List NormalizedIcon)
  | [], _, _ => .ok []
  | icon :: rest, seenNames, seenIdents =>
    if icon.name ∈ seenNames then .error (.duplicateIconName icon.name)
    else
      match normalize_icon_name icon.name.data with
      | .error e => .error e
      | .ok identChars =>
        let ident := String.mk identChars
        match seenIdents.find? (fun p => decide (p.1 = ident)) with
        | some p => .error (.identifierCollision p.2 icon.name ident)
        | none =>
          match processIcon vs icon ident with
          | .error e => .error e
          | .ok ni =>
            match buildIcons vs rest (icon.name :: seenNames)
                ((ident, icon.name) :: seenIdents) with
            | .error e => .error e
            | .ok tail => .ok (ni :: tail)

/-- normalize_pack (xtask/src/main.rs 270-474): sort variants by id, validate
them, normalize every icon, and sort icons by name. -/
def normalize_pack (pack : PackMap) : Except NormErr NormalizedPack :=
  match buildVariants (sortBy (fun a b => strLe a.id b.id) pack.variants) [] [] with
  | .error e => .error e
  | .ok vs =>
    match buildIcons vs pack.icons [] [] with
    | .error e => .error e
    | .ok icons =>
      .ok ⟨pack.pack_id, vs, sortBy (fun a b => strLe a.name b.name) icons⟩

/-! ### Emitted lookup tables and the generated resolve_icon
(render_mod / render_pack, xtask/src/main.rs 528-967).  The tables are
modelled in the all-features-enabled build configuration, in which every
conditionally compiled table row is present. -/

/-- Emitted ICON_..._AVAILABLE rows of one icon: the (style, size) pairs of
its codepoint rows, in the same order (render_pack 863-880). -/
def availList (ni : NormalizedIcon) : List (Style × Size) :=
  ni.codepoints.map (fun p => (p.1.style, p.1.size))

/-- Generated `icon_available` (render_pack 956-964): linear scan of the
ICON_AVAILABILITY table. -/
def icon_available (np : NormalizedPack) (name : String) :
    Option (List (Style × Size)) :=
  (np.icons.find? (fun i => decide (i.name = name))).map availList

/-- Generated `icon_codepoint` (render_pack 941-954): linear scan of the
ICON_CODEPOINTS table, then of the icon's codepoint rows. -/
def icon_codepoint (np : NormalizedPack) (name : String) (key : VariantKey) :
    Option Nat :=
  (np.icons.find? (fun i => decide (i.name = name))).bind
    (fun i => (i.codepoints.find? (fun p => decide (p.1 = key))).map (fun p => p.2))

/-- Generated `variant_info` (render_pack 931-939): linear scan of VARIANTS. -/
def variant_info (np : NormalizedPack) (style : Style) (size : Size) :
    Option VariantInfo :=
  np.variants.find? (fun v => decide (v.key = VariantKey.mk style size))

/-- Generated `resolve_icon` (render_mod 652-681).  The two `expect` calls are
panics; a panic is modelled as `none`, so a `some` result is a non-panicking
return. -/
def resolve_icon (pack name : String) (style : Style) (size : Size)
    (available : Option (List (Style × Size))) (family : Option String)
    (codepoint : Option Nat) : Option (Except IconError IconRef) :=
  match available with
  | none => some (.error (.iconNotFound pack name))
  | some avail =>
    if (style, size) ∉ avail then
      some (.error (.variantUnavailable pack name (style, size) avail))
    else
      match family, codepoint with
      | some f, some c => some (.ok ⟨f, c⟩)
      | _, _ => none

/-- Generated `try_icon` dispatch body for an enabled pack (render_mod
607-641): feeds the pack's table lookups into resolve_icon. -/
def tryIconPack (np : NormalizedPack) (name : String) (style : Style)
    (size : Size) : Option (Except IconError IconRef) :=
  resolve_icon np.pack_id name style size (icon_available np name)
    ((variant_info np style size).map (fun v => v.family))
    (icon_codepoint np name ⟨style, size⟩)

/-- Generated `try_icon` when no pack feature is enabled (render_mod 643-649). -/
def tryIconNoPacks : Except IconError IconRef :=
  .error (.packDisabled ("none"))

/-! ### Font asset deduplicator (collect_font_assets, xtask/src/main.rs 476-526) -/

/-- Backslash-to-slash path normalization applied to every asset path. -/
def normPath (p : String) : String :=
  String.mk (p.data.map (fun c => if c = '\\' then '/' else c))

/-- First conflicting family for one backing path, scanning variants in order
with the first-inserted family kept (collect_font_assets 481-501). -/
def findConflict : List VariantInfo → List (String × String) →
    Option (String × String × String)
  | [], _ => none
  | v :: rest, seen =>
    match seen.find? (fun e => decide (e.1 = normPath v.ttf_asset_path)) with
    | some e =>
      if e.2 ≠ v.family then some (normPath v.ttf_asset_path, e.2, v.family)
      else findConflict rest seen
    | none => findConflict rest ((normPath v.ttf_asset_path, v.family) :: seen)

/-- Family recorded for a path: the first variant inserted it. -/
def firstFamilyFor (vs : List VariantInfo) (path : String) : Option String :=
  (vs.find? (fun v => decide (normPath v.ttf_asset_path = path))).map
    (fun v => v.family)

/-- Distinct normalized asset paths, first occurrences kept. -/
def dedupPaths : List String → List String
  | [] => []
  | x :: l => x :: (dedupPaths l).filter (fun y => decide (y ≠ x))

/-- Rust `Path::file_name` on a slash-separated path: trailing separators are
ignored and `.`, `..` and an empty component have no file name. -/
def fileNameOf (p : List Char) : Option (List Char) :=
  let name := ((p.reverse.dropWhile (fun c => c = '/')).takeWhile
      (fun c => c ≠ '/')).reverse
  if name = [] ∨ name = [ '.' ] ∨ name = [ '.', '.' ] then none else some name

/-- Rust `Path::file_stem`: the portion of the file name before the last dot,
or the whole name when there is no dot or only a leading dot. -/
def stemOf (name : List Char) : List Char :=
  match name.reverse.findIdx? (fun c => c = '.') with
  | none => name
  | some i =>
    let pre := name.take (name.length - 1 - i)
    if pre = [] then name else pre

/-- to_upper_snake loop body (xtask/src/main.rs 1105-1132), carrying the index
and the accumulated output. -/
def upperSnakeGo : List Char → Nat → List Char → Except NormErr (List Char)
  | [], _, out => .ok out
  | c :: rest, idx, out =>
    if c.isUpper then
      upperSnakeGo rest (idx + 1)
        (out ++ (if idx ≠ 0 then [ '_' ] else []) ++ [c])
    else if c.isLower then
      upperSnakeGo rest (idx + 1) (out ++ [c.toUpper])
    else if c.isDigit then
      upperSnakeGo rest (idx + 1)
        (out ++ (if idx ≠ 0 ∧ out.getLast? ≠ some '_' then [ '_' ] else []) ++ [c])
    else if c = '_' then
      upperSnakeGo rest (idx + 1)
        (if out.getLast? = some '_' then out else out ++ [ '_' ])
    else .error (.identUnsupportedChar c)

/-- to_upper_snake (xtask/src/main.rs 1105-1132). -/
def to_upper_snake (ident : List Char) : Except NormErr (List Char) :=
  if ident = [] then .error .emptyIdent else upperSnakeGo ident 0 []

/-- font_asset_const_ident_from_path (xtask/src/main.rs 996-1006). -/
def font_asset_const_ident_from_path (packId : String) (path : String) :
    Except NormErr String :=
  match fileNameOf path.data with
  | none => .error (.invalidAssetPath path)
  | some name =>
    match to_upper_snake ((stemOf name).map (fun c => if c = '-' then '_' else c)) with
    | .error e => .error e
    | .ok stemIdent =>
      match to_upper_snake packId.data with
      | .error e => .error e
      | .ok packIdent =>
        .ok (String.mk (("FONT_ASSET_").data ++ packIdent ++ [ '_' ] ++ stemIdent))

/-- Variants whose normalized asset path equals `path`: the group that one
BTreeMap entry of collect_font_assets aggregates. -/
def assetGroup (pack : NormalizedPack) (path : String) : List VariantInfo :=
  pack.variants.filter (fun v => decide (normPath v.ttf_asset_path = path))

/-- Asset record for one backing path: first-inserted family, derived constant
identifier, and the group feature — the shared feature when the group's
distinct feature set is a singleton, no feature otherwise
(collect_font_assets 503-523). -/
def assetForPath (pack : NormalizedPack) (path : String) :
    Except NormErr FontAssetInfo :=
  match font_asset_const_ident_from_path pack.pack_id path with
  | .error e => .error e
  | .ok constIdent =>
    let feats := ((assetGroup pack path).map (fun v => v.feature)).dedup
    .ok ⟨constIdent, (firstFamilyFor pack.variants path).getD (""),
         path, if feats.length = 1 then feats.headD none else none⟩

/-- collect_font_assets (xtask/src/main.rs 476-526), restricted to the asset
list; the per-path constant map and per-key feature map are projections of the
same data.  Paths iterate in sorted order, as the Rust BTreeMap does. -/
def collect_font_assets (pack : NormalizedPack) :
    Except NormErr (List FontAssetInfo) :=
  match findConflict pack.variants [] with
  | some c => .error (.conflictingFamily pack.pack_id c.1 c.2.1 c.2.2)
  | none =>
    mapE (assetForPath pack)
      (sortBy strLe (dedupPaths (pack.variants.map
        (fun v => normPath v.ttf_asset_path))))

/-! ### Sync checker and generation pipeline (write_output / run_gen,
xtask/src/main.rs 209-252 and 1167-1190) -/

/-- Filesystem state: persisted content per path. -/
abbrev FS := String → Option String

/-- Point update of the filesystem. -/
def fsWrite (fs : FS) (path content : String) : FS :=
  fun q => if q = path then some content else fs q

/-- Generation-run errors: loader, normalization, rendering and sync-checker
failures (run_gen's anyhow results). -/
inductive GenErr where
  | noMapFiles
  | readFailed (path : String)
  | parseFailed (path : String)
  | norm (e : NormErr)
  | renderFailed (msg : String)
  | driftDetected (path : String)
  | missingArtifact (path : String)
deriving DecidableEq

/-- write_output (xtask/src/main.rs 1167-1190): in check mode fail on drift or
a missing artifact without touching the filesystem; in write mode rewrite a
differing or absent artifact. -/
def write_output (fs : FS) (path content : String) (check : Bool) :
    Except GenErr Unit × FS :=
  match fs path with
  | some existing =>
    if existing ≠ content then
      if check then (.error (.driftDetected path), fs)
      else (.ok (), fsWrite fs path content)
    else (.ok (), fs)
  | none =>
    if check then (.error (.missingArtifact path), fs)
    else (.ok (), fsWrite fs path content)

/-- Output loop of run_gen (247-249): write artifacts one at a time, stopping
at the first failure. -/
def writeAll (check : Bool) : List (String × String) → FS → Except GenErr Unit × FS
  | [], fs => (.ok (), fs)
  | (path, content) :: rest, fs =>
    match write_output fs path content check with
    | (.error e, fs') => (.error e, fs')
    | (.ok _, fs') => writeAll check rest fs'

/-- Rust `Path::extension` on a slash-separated path: the portion of the file
name after the last dot, absent when there is no dot or only a leading dot. -/
def extOf (p : String) : Option (List Char) :=
  match fileNameOf p.data with
  | none => none
  | some name =>
    let extRev := name.reverse.takeWhile (fun c => c ≠ '.')
    if extRev.length = name.length then none
    else if extRev.length + 1 = name.length then none
    else some extRev.reverse

/-- Loader filter of run_gen (214-218): keep exactly the entries whose
extension is `json`. -/
def isJsonEntry (p : String) : Bool :=
  decide (extOf p = some (("json").data))

/-- run_gen (xtask/src/main.rs 209-252).  Reading and JSON-parsing a
descriptor (`load`) and rendering plus rustfmt (`renderFmt`, which runs only
after every pack normalized) are environment parameters; everything in
between — entry filtering, lexicographic ordering, normalization of every
pack, pack ordering, and the write/check loop — is the function itself. -/
def run_gen_model (load : String → Except GenErr PackMap)
    (renderFmt : List NormalizedPack → Except GenErr (List (String × String)))
    (entries : List String) (check : Bool) (fs : FS) :
    Except GenErr Unit × FS :=
  let mapPaths := sortBy strLe (entries.filter isJsonEntry)
  if mapPaths = [] then (.error .noMapFiles, fs)
  else
    match mapE load mapPaths with
    | .error e => (.error e, fs)
    | .ok packs =>
      match mapE (fun p => (normalize_pack p).mapError GenErr.norm) packs with
      | .error e => (.error e, fs)
      | .ok normalized =>
        match renderFmt (sortBy (fun a b => strLe a.pack_id b.pack_id) normalized) with
        | .error e => (.error e, fs)
        | .ok outputs => writeAll check outputs fs

/-! ### Invariants established by normalize_pack -/

theorem buildVariants_ok (l : List Variant) :
    ∀ seenIds seenKeys vs, buildVariants l seenIds seenKeys = .ok vs →
      vs = l.map toInfo ∧ (vs.map (fun v => v.id)).Nodup ∧
      ∀ v ∈ vs, v.id ∉ seenIds := by
  induction l with
  | nil =>
    intro seenIds seenKeys vs h
    simp only [buildVariants, Except.ok.injEq] at h
    subst h; simp
  | cons a t ih =>
    intro seenIds seenKeys vs h
    simp only [buildVariants] at h
    split at h
    · cases h
    · split at h
      · cases h
      · split at h
        · cases h
        · rename_i hid _ _
          cases hrec : buildVariants t (a.id :: seenIds)
              (⟨a.style, a.size⟩ :: seenKeys) with
          | error e => rw [hrec] at h; cases h
          | ok tail =>
            rw [hrec] at h
            simp only [Except.ok.injEq] at h
            subst h
            rcases ih _ _ _ hrec with ⟨heq, hnd, hseen⟩
            refine ⟨by simp [heq], ?_, ?_⟩
            · simp only [List.map_cons, List.nodup_cons]
              refine ⟨?_, hnd⟩
              intro hmem
              rcases List.mem_map.mp hmem with ⟨w, hw, hwid⟩
              exact (hseen w hw) (by rw [hwid]; exact List.mem_cons_self _ _)
            · intro v hv
              rcases List.mem_cons.mp hv with rfl | hv'
              · exact hid
              · intro hc
                exact (hseen v hv') (List.mem_cons_of_mem _ hc)

theorem keyById_mem (vs : List VariantInfo) (vid : String) (k : VariantKey)
    (h : keyById vs vid = some k) : ∃ v, v ∈ vs ∧ v.id = vid ∧ v.key = k := by
  simp only [keyById, Option.map_eq_some'] at h
  rcases h with ⟨v, hfind, hk⟩
  have hmem := List.mem_of_find?_eq_some hfind
  have hpred := List.find?_some hfind
  simp only [decide_eq_true_eq] at hpred
  exact ⟨v, hmem, hpred, hk⟩

theorem keyById_self (vs : List VariantInfo) :
    (vs.map (fun v => v.id)).Nodup → ∀ v ∈ vs, keyById vs v.id = some v.key := by
  induction vs with
  | nil => intro _ v hv; cases hv
  | cons a t ih =>
    intro hnd v hv
    rw [List.map_cons, List.nodup_cons] at hnd
    rcases hnd with ⟨hna, hndt⟩
    rcases List.mem_cons.mp hv with rfl | hv'
    · simp only [keyById]
      rw [List.find?_cons_of_pos _ (by simp)]
      rfl
    · have hne : ¬ (a.id = v.id) := by
        intro he
        exact hna (he ▸ List.mem_map_of_mem (fun v => v.id) hv')
      simp only [keyById]
      rw [List.find?_cons_of_neg _ (by simpa using hne)]
      exact ih hndt v hv'

theorem buildCodepoints_ok (vs : List VariantInfo) (icon : Icon)
    (avail : List String) :
    ∀ ids cps, buildCodepoints vs icon avail ids = .ok cps →
      (∀ p ∈ cps, ∃ v, v ∈ vs ∧ v.key = p.1) ∧
      List.Sublist (cps.map Prod.fst) (ids.filterMap (keyById vs)) := by
  intro ids
  induction ids with
  | nil =>
    intro cps h
    simp only [buildCodepoints, Except.ok.injEq] at h
    subst h; simp
  | cons vid rest ih =>
    intro cps h
    simp only [buildCodepoints] at h
    split at h
    · split at h
      · cases h
      · rename_i cp _
        split at h
        · cases h
        · rename_i key hk
          split at h
          · cases h
          · rename_i tail hrec
            simp only [Except.ok.injEq] at h
            subst h
            rcases ih tail hrec with ⟨hkeys, hsub⟩
            constructor
            · intro p hp
              rcases List.mem_cons.mp hp with rfl | hp'
              · rcases keyById_mem vs vid key hk with ⟨v, hv, _, hvk⟩
                exact ⟨v, hv, hvk⟩
              · exact hkeys p hp'
            · simp only [List.map_cons, List.filterMap_cons, hk]
              exact List.Sublist.cons₂ key hsub
    · rcases ih cps h with ⟨hkeys, hsub⟩
      refine ⟨hkeys, ?_⟩
      simp only [List.filterMap_cons]
      cases hk : keyById vs vid with
      | none => exact hsub
      | some key => exact List.Sublist.cons key hsub

theorem filterMap_keyById (vs : List VariantInfo)
    (hnd : (vs.map (fun v => v.id)).Nodup) :
    (vs.map (fun v => v.id)).filterMap (keyById vs) = vs.map (fun v => v.key) := by
  have hgen : ∀ ws : List VariantInfo,
      (∀ w ∈ ws, keyById vs w.id = some w.key) →
      (ws.map (fun v => v.id)).filterMap (keyById vs) = ws.map (fun v => v.key) := by
    intro ws
    induction ws with
    | nil => intro _; simp
    | cons a t iht =>
      intro hws
      simp only [List.map_cons, List.filterMap_cons, hws a (List.mem_cons_self a t)]
      rw [iht (fun w hw => hws w (List.mem_cons_of_mem a hw))]
  exact hgen vs (keyById_self vs hnd)

theorem processIcon_ok (vs : List VariantInfo) (icon : Icon) (ident : String)
    (ni : NormalizedIcon) (h : processIcon vs icon ident = .ok ni) :
    firstNotMem (icon.overrides.map (fun p => p.1)) (vs.map (fun v => v.id)) = none ∧
    checkExplicitRefs vs icon = .ok () ∧
    ∃ avail cps, computeAvailability (vs.map (fun v => v.id)) icon = .ok avail ∧
      buildCodepoints vs icon avail (vs.map (fun v => v.id)) = .ok cps ∧
      cps ≠ [] ∧ ni = ⟨icon.name, ident, cps⟩ := by
  simp only [processIcon] at h
  split at h
  · cases h
  · rename_i hfn
    split at h
    · cases h
    · rename_i u hcr
      split at h
      · cases h
      · rename_i avail hca
        split at h
        · cases h
        · rename_i cps hbc
          split at h
          · cases h
          · rename_i hne
            simp only [Except.ok.injEq] at h
            cases u
            exact ⟨hfn, hcr, avail, cps, hca, hbc, hne, h.symm⟩

theorem buildIcons_ok (vs : List VariantInfo) :
    ∀ icons seenNames seenIdents nis,
      buildIcons vs icons seenNames seenIdents = .ok nis →
      (∀ ni ∈ nis, ∃ icon, icon ∈ icons ∧
        ∃ ident, processIcon vs icon ident = .ok ni) ∧
      (∀ icon ∈ icons, ∃ ident ni, processIcon vs icon ident = .ok ni) := by
  intro icons
  induction icons with
  | nil =>
    intro seenNames seenIdents nis h
    simp only [buildIcons, Except.ok.injEq] at h
    subst h; simp
  | cons icon rest ih =>
    intro seenNames seenIdents nis h
    simp only [buildIcons] at h
    split at h
    · cases h
    · split at h
      · cases h
      · rename_i identChars hni
        split at h
        · cases h
        · rename_i hcol
          split at h
          · cases h
          · rename_i ni0 hpi
            split at h
            · cases h
            · rename_i tail hrec
              simp only [Except.ok.injEq] at h
              subst h
              rcases ih _ _ _ hrec with ⟨hmem, hall⟩
              constructor
              · intro ni hni'
                rcases List.mem_cons.mp hni' with rfl | hni''
                · exact ⟨icon, List.mem_cons_self _ _, String.mk identChars, hpi⟩
                · rcases hmem ni hni'' with ⟨ic, hic, id', hpi'⟩
                  exact ⟨ic, List.mem_cons_of_mem _ hic, id', hpi'⟩
              · intro ic hic
                rcases List.mem_cons.mp hic with rfl | hic'
                · exact ⟨String.mk identChars, ni0, hpi⟩
                · exact hall ic hic'

theorem normalize_pack_ok (P : PackMap) (np : NormalizedPack)
    (h : normalize_pack P = .ok np) :
    (np.variants.map (fun v => v.id)).Nodup ∧
    (∀ ni ∈ np.icons, ∃ icon ident, processIcon np.variants icon ident = .ok ni) ∧
    (∀ icon ∈ P.icons, ∃ ident ni, processIcon np.variants icon ident = .ok ni) := by
  simp only [normalize_pack] at h
  split at h
  · cases h
  · rename_i vs hv
    split at h
    · cases h
    · rename_i icons hi
      simp only [Except.ok.injEq] at h
      subst h
      rcases buildVariants_ok _ _ _ _ hv with ⟨_, hnd, _⟩
      rcases buildIcons_ok vs P.icons [] [] icons hi with ⟨hmem, hall⟩
      refine ⟨hnd, ?_, hall⟩
      intro ni hni
      have hni' : ni ∈ icons := (sortBy_mem _ ni icons).mp hni
      rcases hmem ni hni' with ⟨icon, _, ident, hpi⟩
      exact ⟨icon, ident, hpi⟩

theorem normalized_icon_invariant (P : PackMap) (np : NormalizedPack)
    (h : normalize_pack P = .ok np) :
    ∀ ni ∈ np.icons,
      (∀ p ∈ ni.codepoints, ∃ v, v ∈ np.variants ∧ v.key = p.1) ∧
      List.Sublist (ni.codepoints.map Prod.fst) (np.variants.map (fun v => v.key)) := by
  rcases normalize_pack_ok P np h with ⟨hnd, hni, _⟩
  intro ni hmem
  rcases hni ni hmem with ⟨icon, ident, hpi⟩
  rcases processIcon_ok _ _ _ _ hpi with ⟨_, _, avail, cps, _, hbc, _, hnieq⟩
  rcases buildCodepoints_ok np.variants icon avail _ cps hbc with ⟨hkeys, hsub⟩
  subst hnieq
  refine ⟨hkeys, ?_⟩
  rw [← filterMap_keyById np.variants hnd]
  exact hsub

theorem find_exists {α : Type} (l : List α) (p : α → Bool) (x : α)
    (hx : x ∈ l) (hpx : p x = true) :
    ∃ y, l.find? p = some y ∧ p y = true ∧ y ∈ l := by
  have hs : (l.find? p).isSome := List.find?_isSome.mpr ⟨x, hx, hpx⟩
  cases hy : l.find? p with
  | none => rw [hy] at hs; cases hs
  | some y => exact ⟨y, rfl, List.find?_some hy, List.mem_of_find?_eq_some hy⟩

theorem tryIcon_ok_case (P : PackMap) (np : NormalizedPack)
    (h : normalize_pack P = .ok np) (name : String) (style : Style) (size : Size)
    (icon : NormalizedIcon)
    (hf : np.icons.find? (fun i => decide (i.name = name)) = some icon)
    (hin : (style, size) ∈ availList icon) :
    ∃ v q, v ∈ np.variants ∧ v.key = ⟨style, size⟩ ∧
      variant_info np style size = some v ∧
      q ∈ icon.codepoints ∧ q.1 = ⟨style, size⟩ ∧
      icon_codepoint np name (⟨style, size⟩ : VariantKey) = some q.2 ∧
      tryIconPack np name style size = some (.ok ⟨v.family, q.2⟩) := by
  have hicon : icon ∈ np.icons := List.mem_of_find?_eq_some hf
  rcases List.mem_map.mp hin with ⟨p, hp, hpe⟩
  obtain ⟨k, cp⟩ := p
  obtain ⟨ks, kz⟩ := k
  simp only [Prod.mk.injEq] at hpe
  rw [hpe.1, hpe.2] at hp
  -- the codepoint row for the requested key
  rcases find_exists icon.codepoints (fun q => decide (q.1 = (⟨style, size⟩ : VariantKey)))
      (⟨⟨style, size⟩, cp⟩ : VariantKey × Nat) hp (by simp) with ⟨q, hqf, hqp, hqm⟩
  have hq1 : q.1 = (⟨style, size⟩ : VariantKey) := of_decide_eq_true hqp
  -- the variant record for the requested key
  rcases (normalized_icon_invariant P np h icon hicon).1 q hqm with ⟨v0, hv0, hv0k⟩
  rcases find_exists np.variants (fun v => decide (v.key = VariantKey.mk style size))
      v0 hv0 (by simp [hv0k, hq1]) with ⟨v, hvf, hvp, hvm⟩
  have hvk : v.key = (⟨style, size⟩ : VariantKey) := of_decide_eq_true hvp
  have hca : icon_codepoint np name (⟨style, size⟩ : VariantKey) = some q.2 := by
    simp only [icon_codepoint, hf, Option.some_bind, hqf, Option.map_some']
  have hvi : variant_info np style size = some v := hvf
  refine ⟨v, q, hvm, hvk, hvi, hqm, hq1, hca, ?_⟩
  simp only [tryIconPack, icon_available, hf, Option.map_some', resolve_icon,
    hca, hvi]
  rw [if_neg (not_not_intro hin)]

/-- C1: for a normalized pack's emitted tables, the generated resolve path of
try_icon returns IconNotFound for an unknown name; VariantUnavailable carrying
the icon's full availability list (whose keys follow the declared, id-sorted
variant order) when (style, size) is not in the icon's availability; and the
variant's family with the icon's codepoint for that variant otherwise. -/
theorem C1_resolve_icon_cases (P : PackMap) (np : NormalizedPack)
    (h : normalize_pack P = .ok np) (name : String) (style : Style) (size : Size) :
    (np.icons.find? (fun i => decide (i.name = name)) = none →
      tryIconPack np name style size =
        some (.error (.iconNotFound np.pack_id name))) ∧
    (∀ icon, np.icons.find? (fun i => decide (i.name = name)) = some icon →
      ((style, size) ∉ availList icon →
        tryIconPack np name style size =
          some (.error (.variantUnavailable np.pack_id name (style, size)
            (availList icon))) ∧
        List.Sublist (icon.codepoints.map Prod.fst)
          (np.variants.map (fun v => v.key))) ∧
      ((style, size) ∈ availList icon →
        ∃ v cp, v ∈ np.variants ∧ v.key = ⟨style, size⟩ ∧
          ((⟨style, size⟩ : VariantKey), cp) ∈ icon.codepoints ∧
          tryIconPack np name style size = some (.ok ⟨v.family, cp⟩))) := by
  refine ⟨?_, ?_⟩
  · intro hf
    simp [tryIconPack, icon_available, hf, resolve_icon]
  · intro icon hf
    constructor
    · intro hna
      constructor
      · simp [tryIconPack, icon_available, hf, resolve_icon, hna]
      · exact (normalized_icon_invariant P np h icon
          (List.mem_of_find?_eq_some hf)).2
    · intro hin
      rcases tryIcon_ok_case P np h name style size icon hf hin with
        ⟨v, q, hvm, hvk, _, hqm, hq1, _, htry⟩
      refine ⟨v, q.2, hvm, hvk, ?_, htry⟩
      rw [← hq1]
      exact hqm

/-- C2: lookup resolution over a normalized pack's tables is total — the
generated resolve_icon never reaches its expect panics (modelled as `none`):
whenever (style, size) lies in an icon's availability rows, the variant-info
and codepoint table scans both succeed, and the no-packs-enabled dispatch
returns the PackDisabled error. -/
theorem C2_try_icon_total (P : PackMap) (np : NormalizedPack)
    (h : normalize_pack P = .ok np) (name : String) (style : Style) (size : Size) :
    (∃ r, tryIconPack np name style size = some r) ∧
    (∀ icon, np.icons.find? (fun i => decide (i.name = name)) = some icon →
      (style, size) ∈ availList icon →
      (variant_info np style size).isSome ∧
      (icon_codepoint np name (⟨style, size⟩ : VariantKey)).isSome) ∧
    tryIconNoPacks = .error (.packDisabled ("none")) := by
  refine ⟨?_, ?_, rfl⟩
  · cases hf : np.icons.find? (fun i => decide (i.name = name)) with
    | none =>
      exact ⟨.error (.iconNotFound np.pack_id name),
        by simp [tryIconPack, icon_available, hf, resolve_icon]⟩
    | some icon =>
      by_cases hin : (style, size) ∈ availList icon
      · rcases tryIcon_ok_case P np h name style size icon hf hin with
          ⟨v, q, _, _, _, _, _, _, htry⟩
        exact ⟨.ok ⟨v.family, q.2⟩, htry⟩
      · exact ⟨.error (.variantUnavailable np.pack_id name (style, size)
          (availList icon)),
          by simp [tryIconPack, icon_available, hf, resolve_icon, hin]⟩
  · intro icon hf hin
    rcases tryIcon_ok_case P np h name style size icon hf hin with
      ⟨v, q, _, _, hvi, _, _, hca, _⟩
    exact ⟨by simp [hvi], by simp [hca]⟩

/-! ### Availability validation (claims C3 and C4) -/

/-- Error kinds that reject an invalid explicit availability list:
EmptyAvailability, DuplicateAvailabilityEntry, UnknownVariantReferenced and
OverrideNotInAvailability. -/
def isAvailabilityValidationErr : NormErr → Prop
  | .emptyAvailability _ => True
  | .duplicateAvailabilityEntry _ _ => True
  | .unknownVariantReferenced _ _ => True
  | .overrideNotInAvailability _ _ => True
  | _ => False

theorem checkExplicitRefs_ok (vs : List VariantInfo) (icon : Icon)
    (l : List String) (hav : icon.availability = some l)
    (h : checkExplicitRefs vs icon = .ok ()) :
    (∀ id ∈ l, id ∈ vs.map (fun v => v.id)) ∧
    (∀ p ∈ icon.overrides, p.1 ∈ l) := by
  simp only [checkExplicitRefs, hav] at h
  split at h
  · cases h
  · rename_i hfa
    split at h
    · cases h
    · rename_i hfo
      refine ⟨(firstNotMem_eq_none _ _).mp hfa, ?_⟩
      intro p hp
      exact (firstNotMem_eq_none _ _).mp hfo p.1
        (List.mem_map_of_mem (fun p => p.1) hp)

theorem checkExplicitRefs_error (vs : List VariantInfo) (icon : Icon) (e : NormErr)
    (h : checkExplicitRefs vs icon = .error e) : isAvailabilityValidationErr e := by
  simp only [checkExplicitRefs] at h
  split at h
  · cases h
  · split at h
    · simp only [Except.error.injEq] at h
      subst h; trivial
    · split at h
      · simp only [Except.error.injEq] at h
        subst h; trivial
      · cases h

theorem computeAvailability_explicit_ok (ids : List String) (icon : Icon)
    (l avail : List String) (hav : icon.availability = some l)
    (h : computeAvailability ids icon = .ok avail) :
    avail = l ∧ l ≠ [] ∧ l.Nodup := by
  simp only [computeAvailability, hav] at h
  split at h
  · cases h
  · rename_i hne
    split at h
    · cases h
    · rename_i hdup
      simp only [Except.ok.injEq] at h
      exact ⟨h.symm, hne, ((firstDup_eq_none l []).mp hdup).1⟩

theorem computeAvailability_explicit_error (ids : List String) (icon : Icon)
    (l : List String) (e : NormErr) (hav : icon.availability = some l)
    (h : computeAvailability ids icon = .error e) :
    isAvailabilityValidationErr e := by
  simp only [computeAvailability, hav] at h
  split at h
  · simp only [Except.error.injEq] at h
    subst h; trivial
  · split at h
    · simp only [Except.error.injEq] at h
      subst h; trivial
    · cases h

theorem normalize_pack_variant_ids (P : PackMap) (np : NormalizedPack)
    (h : normalize_pack P = .ok np) :
    ∀ vid, vid ∈ np.variants.map (fun v => v.id) ↔
      vid ∈ P.variants.map (fun v => v.id) := by
  simp only [normalize_pack] at h
  split at h
  · cases h
  · rename_i vs hv
    split at h
    · cases h
    · rename_i icons hi
      simp only [Except.ok.injEq] at h
      subst h
      rcases buildVariants_ok _ _ _ _ hv with ⟨heq, _, _⟩
      subst heq
      intro vid
      simp only [List.map_map]
      constructor
      · intro hm
        rcases List.mem_map.mp hm with ⟨v, hv', he⟩
        exact List.mem_map.mpr ⟨v, (sortBy_mem _ v _).mp hv', he⟩
      · intro hm
        rcases List.mem_map.mp hm with ⟨v, hv', he⟩
        exact List.mem_map.mpr ⟨v, (sortBy_mem _ v _).mpr hv', he⟩

/-- C3: when an icon omits its availability list, normalize derives it as all
declared variant ids when the icon has a default codepoint, else as the
override keys when overrides exist, else the icon is rejected with the
no-codepoint-or-overrides error. -/
theorem C3_omitted_availability (vs : List VariantInfo) (icon : Icon)
    (ident : String) (hav : icon.availability = none) :
    (icon.codepoint.isSome →
      computeAvailability (vs.map (fun v => v.id)) icon =
        .ok (vs.map (fun v => v.id))) ∧
    (icon.codepoint = none → icon.overrides ≠ [] →
      computeAvailability (vs.map (fun v => v.id)) icon =
        .ok (icon.overrides.map (fun p => p.1))) ∧
    (icon.codepoint = none → icon.overrides = [] →
      computeAvailability (vs.map (fun v => v.id)) icon =
        .error (.noCodepointOrOverrides icon.name) ∧
      processIcon vs icon ident = .error (.noCodepointOrOverrides icon.name)) := by
  refine ⟨?_, ?_, ?_⟩
  · intro hc
    rcases Option.isSome_iff_exists.mp hc with ⟨c, hc'⟩
    simp [computeAvailability, hav, hc']
  · intro hc ho
    simp [computeAvailability, hav, hc, ho]
  · intro hc ho
    have hca : computeAvailability (vs.map (fun v => v.id)) icon =
        .error (.noCodepointOrOverrides icon.name) := by
      simp [computeAvailability, hav, hc, ho]
    refine ⟨hca, ?_⟩
    simp [processIcon, firstNotMem, checkExplicitRefs, hav, ho, hca]

/-- C4: an explicit availability list is accepted only when it is non-empty,
duplicate-free, made of declared variant ids and a superset of the override
keys; a violation rejects the icon with one of the four availability
validation errors, and a pack that normalized successfully contains no
violating icon. -/
theorem C4_explicit_availability (P : PackMap) (np : NormalizedPack)
    (vs : List VariantInfo) (icon : Icon) (ident : String) (l : List String) :
    (normalize_pack P = .ok np → ∀ ic ∈ P.icons, ∀ l', ic.availability = some l' →
      l' ≠ [] ∧ l'.Nodup ∧ (∀ vid ∈ l', vid ∈ P.variants.map (fun v => v.id)) ∧
      (∀ p ∈ ic.overrides, p.1 ∈ l')) ∧
    (icon.availability = some l →
      ¬(l ≠ [] ∧ l.Nodup ∧ (∀ vid ∈ l, vid ∈ vs.map (fun v => v.id)) ∧
        (∀ p ∈ icon.overrides, p.1 ∈ l)) →
      ∃ e, processIcon vs icon ident = .error e ∧ isAvailabilityValidationErr e) := by
  constructor
  · intro h ic hic l' hav
    rcases (normalize_pack_ok P np h).2.2 ic hic with ⟨id', ni, hpi⟩
    rcases processIcon_ok _ _ _ _ hpi with ⟨_, hcr, avail, cps, hca, _, _, _⟩
    rcases checkExplicitRefs_ok np.variants ic l' hav hcr with ⟨hdecl, hover⟩
    rcases computeAvailability_explicit_ok _ ic l' avail hav hca with ⟨_, hne, hnd⟩
    refine ⟨hne, hnd, ?_, hover⟩
    intro vid hvid
    exact (normalize_pack_variant_ids P np h vid).mp (hdecl vid hvid)
  · intro hav hviol
    cases hfn : firstNotMem (icon.overrides.map (fun p => p.1))
        (vs.map (fun v => v.id)) with
    | some vid =>
      exact ⟨.unknownVariantReferenced icon.name vid,
        by simp [processIcon, hfn], trivial⟩
    | none =>
      cases hcr : checkExplicitRefs vs icon with
      | error e =>
        exact ⟨e, by simp [processIcon, hfn, hcr],
          checkExplicitRefs_error vs icon e hcr⟩
      | ok u =>
        cases u
        cases hca : computeAvailability (vs.map (fun v => v.id)) icon with
        | error e =>
          exact ⟨e, by simp [processIcon, hfn, hcr, hca],
            computeAvailability_explicit_error _ icon l e hav hca⟩
        | ok avail =>
          exfalso
          rcases checkExplicitRefs_ok vs icon l hav hcr with ⟨hdecl, hover⟩
          rcases computeAvailability_explicit_ok _ icon l avail hav hca with
            ⟨_, hne, hnd⟩
          exact hviol ⟨hne, hnd, hdecl, hover⟩

/-! ### Identifier claims (C5 and C10) -/

/-- C5 counterexample: on the accepted name "0cat" the code's to_pascal_case
leaves the segment as "0cat", while the claim's transform (uppercase the first
alphabetic character wherever it occurs) yields "0Cat". -/
theorem C5_counterexample_0cat :
    to_pascal_case (("0cat").data) = .ok (("0cat").data) ∧
    ((splitDash (("0cat").data)).map specUppercaseFirstAlphabetic).flatten =
      ("0Cat").data ∧
    ("0cat").data ≠ ("0Cat").data := by decide

/-- C5 (amended): for every accepted icon name, the identifier before the
digit-prefix and keyword-suffix adjustments is the concatenation of the
delimiter-separated segments where each segment's first character is
uppercased when it is alphabetic and the segment is otherwise unchanged; and
acceptance requires every segment to be non-empty. -/
theorem C5_pascal_case_amended (name out : List Char)
    (h : to_pascal_case name = .ok out) :
    out = ((splitDash name).map amendedSegTransform).flatten ∧
    ∀ p ∈ splitDash name, p ≠ [] :=
  pascalParts_ok (splitDash name) out h

theorem C5_witness :
    (("ArrowLeft").data =
      ((splitDash (("arrow-left").data)).map amendedSegTransform).flatten ∧
     ∀ p ∈ splitDash (("arrow-left").data), p ≠ []) :=
  C5_pascal_case_amended (("arrow-left").data) (("ArrowLeft").data) (by decide)

/-- C10: the reserved-keyword check is case-insensitive — the name "type"
produces "Type_" even though "Type" does not literally equal the keyword — and
consequently no identifier produced by normalize_icon_name lowercases to a
bare Rust keyword. -/
theorem C10_keyword_check_case_insensitive :
    normalize_icon_name (("type").data) = .ok (("Type_").data) ∧
    ∀ name ident, normalize_icon_name name = .ok ident →
      is_rust_keyword ident = false := by
  refine ⟨by decide, ?_⟩
  intro name ident h
  simp only [normalize_icon_name] at h
  split at h
  · cases h
  · split at h
    · cases h
    · split at h
      · simp only [Except.ok.injEq] at h
        subst h
        exact is_rust_keyword_append_underscore _
      · rename_i hnk
        simp only [Except.ok.injEq] at h
        subst h
        exact Bool.not_eq_true _ ▸ eq_false_of_ne_true hnk

theorem C10_witness : is_rust_keyword (("Type_").data) = false :=
  C10_keyword_check_case_insensitive.2 (("type").data) (("Type_").data) (by decide)

/-! ### Deduplicator feature gate (C6) -/

theorem dedup_of_all_eq {α : Type} [DecidableEq α] (l : List α) (x : α) :
    l ≠ [] → (∀ y ∈ l, y = x) → l.dedup = [x] := by
  induction l with
  | nil => intro h _; exact absurd rfl h
  | cons a t ih =>
    intro _ hall
    have ha : a = x := hall a (List.mem_cons_self a t)
    cases t with
    | nil => simp [ha]
    | cons b t' =>
      have ht : (b :: t').dedup = [x] :=
        ih (by simp) (fun y hy => hall y (List.mem_cons_of_mem a hy))
      have hb : b = x := hall b (by simp)
      have hmem : a ∈ b :: t' := by
        rw [ha, ← hb]
        exact List.mem_cons_self b t'
      rw [List.dedup_cons_of_mem hmem, ht]

theorem dedup_length_ne_one {α : Type} [DecidableEq α] (l : List α) (x y : α)
    (hx : x ∈ l) (hy : y ∈ l) (hxy : x ≠ y) : l.dedup.length ≠ 1 := by
  intro hlen
  rcases List.length_eq_one.mp hlen with ⟨z, hz⟩
  have hx' : x ∈ l.dedup := List.mem_dedup.mpr hx
  have hy' : y ∈ l.dedup := List.mem_dedup.mpr hy
  rw [hz] at hx' hy'
  simp only [List.mem_singleton] at hx' hy'
  exact hxy (hx'.trans hy'.symm)

/-- C6: each deduplicated font asset carries the feature shared by every
variant of its backing-path group (including the no-feature case), and carries
no feature — is emitted ungated — when the group holds two distinct feature
values. -/
theorem C6_asset_feature_gate (pack : NormalizedPack) (assets : List FontAssetInfo)
    (h : collect_font_assets pack = .ok assets) :
    ∀ a ∈ assets,
      (∀ phi, (∀ v ∈ assetGroup pack a.ttf_asset_path, v.feature = phi) →
        assetGroup pack a.ttf_asset_path ≠ [] → a.feature = phi) ∧
      ((∃ v ∈ assetGroup pack a.ttf_asset_path,
          ∃ w ∈ assetGroup pack a.ttf_asset_path, v.feature ≠ w.feature) →
        a.feature = none) := by
  intro a ha
  simp only [collect_font_assets] at h
  split at h
  · cases h
  · rcases mapE_mem _ _ _ h a ha with ⟨p, hp, hap⟩
    simp only [assetForPath] at hap
    split at hap
    · cases hap
    · rename_i constIdent hci
      simp only [Except.ok.injEq] at hap
      subst hap
      constructor
      · intro phi hall hne
        have hfe : ((assetGroup pack p).map (fun v => v.feature)).dedup = [phi] := by
          apply dedup_of_all_eq
          · simpa using hne
          · intro y hy
            rcases List.mem_map.mp hy with ⟨v, hv, he⟩
            rw [← he]
            exact hall v hv
        simp [hfe]
      · rintro ⟨v, hv, w, hw, hvw⟩
        have hlen : ((assetGroup pack p).map (fun v => v.feature)).dedup.length ≠ 1 :=
          dedup_length_ne_one _ v.feature w.feature
            (List.mem_map_of_mem _ hv) (List.mem_map_of_mem _ hw) hvw
        simp [if_neg hlen]

/-! ### Sync checker and run pipeline (C7, C8, C9) -/

/-- C7: in check mode the sync checker mutates nothing, succeeds exactly when
the persisted content equals the rendered content, and otherwise fails with
drift-detected on differing content and missing-artifact on an absent file. -/
theorem C7_check_mode_no_mutation (fs : FS) (path content : String) :
    (write_output fs path content true).2 = fs ∧
    ((write_output fs path content true).1 = .ok () ↔ fs path = some content) ∧
    (∀ e, fs path = some e → e ≠ content →
      (write_output fs path content true).1 = .error (.driftDetected path)) ∧
    (fs path = none →
      (write_output fs path content true).1 = .error (.missingArtifact path)) := by
  cases hp : fs path with
  | none => simp [write_output, hp]
  | some existing =>
    by_cases he : existing = content
    · subst he
      simp [write_output, hp]
    · simp [write_output, hp, he]

/-- C8: in write mode, when any loaded pack fails normalization the run stops
with an error before any artifact write, leaving the filesystem untouched —
including the artifacts of packs that normalized successfully. -/
theorem C8_norm_failure_writes_nothing
    (load : String → Except GenErr PackMap)
    (renderFmt : List NormalizedPack → Except GenErr (List (String × String)))
    (entries : List String) (fs : FS) (packs : List PackMap)
    (hload : mapE load (sortBy strLe (entries.filter isJsonEntry)) = .ok packs)
    (hbad : ∃ p ∈ packs, ∃ e, normalize_pack p = .error e) :
    (run_gen_model load renderFmt entries false fs).2 = fs ∧
    ∃ e', (run_gen_model load renderFmt entries false fs).1 = .error e' := by
  rcases hbad with ⟨p, hp, e, he⟩
  have hbadmap : (fun q => (normalize_pack q).mapError GenErr.norm) p =
      .error (.norm e) := by
    simp [he, Except.mapError]
  rcases mapE_error_of_mem (fun q => (normalize_pack q).mapError GenErr.norm)
      packs p (GenErr.norm e) hp hbadmap with ⟨e', he'⟩
  simp only [run_gen_model]
  split
  · exact ⟨rfl, .noMapFiles, rfl⟩
  · simp [hload, he']

/-- C9: the loader considers exactly the entries whose extension is `json` —
the run result is independent of what loading any other entry would produce —
and when no entry has that extension the run fails with the no-map-files
error, touching nothing. -/
theorem C9_loader_json_only
    (load load' : String → Except GenErr PackMap)
    (renderFmt : List NormalizedPack → Except GenErr (List (String × String)))
    (entries : List String) (check : Bool) (fs : FS) :
    ((∀ p, isJsonEntry p = true → load p = load' p) →
      run_gen_model load renderFmt entries check fs =
        run_gen_model load' renderFmt entries check fs) ∧
    ((∀ p ∈ entries, isJsonEntry p = false) →
      run_gen_model load renderFmt entries check fs = (.error .noMapFiles, fs)) := by
  constructor
  · intro hagree
    have hmeq : mapE load (sortBy strLe (entries.filter isJsonEntry)) =
        mapE load' (sortBy strLe (entries.filter isJsonEntry)) := by
      apply mapE_congr
      intro x hx
      apply hagree
      exact (List.mem_filter.mp ((sortBy_mem _ x _).mp hx)).2
    simp only [run_gen_model, hmeq]
  · intro hnone
    have hfilter : entries.filter isJsonEntry = [] := by
      rw [List.filter_eq_nil_iff]
      intro p hp
      simp [hnone p hp]
    simp [run_gen_model, hfilter, sortBy]

/-! ### Concrete instances for the witnesses -/

/-- One-variant, one-icon descriptor with a default codepoint. -/
def demoPack : PackMap :=
  ⟨"demo",
   [⟨"regular", .Regular, .Regular, "Demo Regular", "assets/fonts/demo.ttf", none⟩],
   [⟨"alarm", some 59396, [], none⟩]⟩

/-- Normalized form of demoPack. -/
def demoNP : NormalizedPack :=
  ⟨"demo",
   [⟨"regular", ⟨.Regular, .Regular⟩, "Demo Regular", "assets/fonts/demo.ttf", none⟩],
   [⟨"alarm", "Alarm", [(⟨.Regular, .Regular⟩, 59396)]⟩]⟩

/-- Icon of demoPack. -/
def demoIcon : Icon := ⟨"alarm", some 59396, [], none⟩

/-- Icon with an explicit availability list. -/
def demoIconAvail : Icon := ⟨"alarm", some 59396, [], some ["regular"]⟩

/-- demoPack with the icon's availability made explicit. -/
def demoPackAvail : PackMap :=
  ⟨"demo",
   [⟨"regular", .Regular, .Regular, "Demo Regular", "assets/fonts/demo.ttf", none⟩],
   [demoIconAvail]⟩

/-- Two variants backed by one font file, both gated by one feature. -/
def demoNP2 : NormalizedPack :=
  ⟨"demo",
   [⟨"regular", ⟨.Regular, .Regular⟩, "Demo", "assets/demo.ttf", some ("f1")⟩,
    ⟨"filled", ⟨.Filled, .Regular⟩, "Demo", "assets/demo.ttf", some ("f1")⟩],
   []⟩

/-- Deduplicated asset of demoNP2. -/
def demoAsset : FontAssetInfo :=
  ⟨"FONT_ASSET_DEMO_DEMO", "Demo", "assets/demo.ttf", some ("f1")⟩

/-- Descriptor with a duplicated variant id (normalization fails). -/
def badVariantPack : PackMap :=
  ⟨"demo", [⟨"r", .Regular, .Regular, "F", "a.ttf", none⟩,
            ⟨"r", .Filled, .Regular, "F", "a.ttf", none⟩], []⟩

/-- Loader stub returning badVariantPack for every path. -/
def demoLoad : String → Except GenErr PackMap := fun _ => .ok badVariantPack

/-- Renderer stub producing no outputs. -/
def demoRender : List NormalizedPack → Except GenErr (List (String × String)) :=
  fun _ => .ok []

/-- Empty filesystem. -/
def emptyFS : FS := fun _ => none

/-- Filesystem persisting one artifact. -/
def demoFS : FS := fun p => if p = "gen/mod.rs" then some ("content") else none

theorem C1_witness :
    tryIconPack demoNP ("missing") .Regular .Regular =
      some (.error (.iconNotFound ("demo") ("missing"))) :=
  (C1_resolve_icon_cases demoPack demoNP (by decide) "missing" .Regular .Regular).1
    (by decide)

theorem C2_witness : ∃ r, tryIconPack demoNP ("alarm") .Filled .Mini = some r :=
  (C2_try_icon_total demoPack demoNP (by decide) "alarm" .Filled .Mini).1

theorem C3_witness :
    computeAvailability (demoNP.variants.map (fun v => v.id)) demoIcon =
      .ok (demoNP.variants.map (fun v => v.id)) :=
  (C3_omitted_availability demoNP.variants demoIcon ("Alarm") (by decide)).1 (by decide)

theorem C4_witness :
    (["regular"] : List String) ≠ [] ∧ (["regular"] : List String).Nodup ∧
    (∀ vid ∈ (["regular"] : List String),
      vid ∈ demoPackAvail.variants.map (fun v => v.id)) ∧
    (∀ p ∈ demoIconAvail.overrides, p.1 ∈ (["regular"] : List String)) :=
  (C4_explicit_availability demoPackAvail demoNP demoNP.variants demoIconAvail
      "Alarm" ["regular"]).1 (by decide) demoIconAvail (by decide) ["regular"]
    (by decide)

theorem C6_witness : demoAsset.feature = some ("f1") :=
  ((C6_asset_feature_gate demoNP2 [demoAsset] (by decide) demoAsset
      (by decide)).1) (some ("f1")) (by decide) (by decide)

theorem C7_witness :
    (write_output demoFS ("other.rs") ("c") true).2 = demoFS ∧
    (write_output demoFS ("other.rs") ("c") true).1 = .error (.missingArtifact ("other.rs")) :=
  ⟨(C7_check_mode_no_mutation demoFS ("other.rs") ("c")).1,
   (C7_check_mode_no_mutation demoFS ("other.rs") ("c")).2.2.2 (by decide)⟩

theorem C8_witness :
    (run_gen_model demoLoad demoRender ["a.json"] false emptyFS).2 = emptyFS ∧
    ∃ e', (run_gen_model demoLoad demoRender ["a.json"] false emptyFS).1 = .error e' :=
  C8_norm_failure_writes_nothing demoLoad demoRender ["a.json"] emptyFS
    [badVariantPack] (by decide)
    ⟨badVariantPack, by decide, .duplicateVariantId ("r"), by decide⟩

theorem C9_witness :
    run_gen_model demoLoad demoRender ["b.txt"] false emptyFS =
      (.error .noMapFiles, emptyFS) :=
  (C9_loader_json_only demoLoad demoLoad demoRender ["b.txt"] false emptyFS).2
    (by decide)

end IconFlow
